import Mathlib

/-!
# Verification of `librepcb::SExpression` (src/libs/librepcb/common/fileio/sexpression.h)

A shallow embedding of the `SExpression` class: its node data model
(`mType`, `mValue`, `mChildren`, `mFilePath`), the typed value codec
(`objectToString` / `stringToObject` specializations), the typed accessors
(`getValue`, `getValueOfFirstChild`), the append operations, and — modelled
from the specification where the implementation is not part of the header —
the canonical renderer (`toString`) and the parser adapter (`parse`).
-/

namespace LibrePCB

/-- The node kind, mirroring `SExpression::Type`. -/
inductive SType where
  | list
  | token
  | string
  | lineBreak
deriving DecidableEq, Repr

/-- The `SExpression` node: `mType`, `mValue` (list name, token or string
text), `mChildren`, and `mFilePath` (provenance; file paths are modelled as
plain strings, the invalid `FilePath()` as `""`). -/
inductive SExpression where
  | mk (type : SType) (value : String) (children : List SExpression)
      (filePath : String)
deriving Repr

/-- Embeds `SExpression::getType()`. -/
def SExpression.type : SExpression → SType
  | .mk t _ _ _ => t

/-- The private `mValue` field (list name, token text or string text). -/
def SExpression.value : SExpression → String
  | .mk _ v _ _ => v

/-- Embeds `SExpression::getChildren()`. -/
def SExpression.children : SExpression → List SExpression
  | .mk _ _ cs _ => cs

/-- Embeds `SExpression::getFilePath()`. -/
def SExpression.filePath : SExpression → String
  | .mk _ _ _ fp => fp

/-- Embeds `SExpression::isList()`. -/
def SExpression.isList (e : SExpression) : Bool := e.type = SType.list

/-- Embeds `SExpression::isToken()`. -/
def SExpression.isToken (e : SExpression) : Bool := e.type = SType.token

/-- Embeds `SExpression::isString()`. -/
def SExpression.isString (e : SExpression) : Bool := e.type = SType.string

/-- Embeds `SExpression::isLineBreak()`. -/
def SExpression.isLineBreak (e : SExpression) : Bool := e.type = SType.lineBreak

mutual

/-- Structural (deep) node equality: kind, value and children compared
recursively, provenance (`mFilePath`) excluded, as the data model demands. -/
def deepEquals : SExpression → SExpression → Bool
  | .mk t₁ v₁ cs₁ _, .mk t₂ v₂ cs₂ _ =>
    t₁ = t₂ ∧ v₁ = v₂ ∧ deepEqualsList cs₁ cs₂

/-- Pointwise `deepEquals` on child lists. -/
def deepEqualsList : List SExpression → List SExpression → Bool
  | [], [] => true
  | c₁ :: cs₁, c₂ :: cs₂ => deepEquals c₁ c₂ ∧ deepEqualsList cs₁ cs₂
  | _, _ => false

end

/-- The exceptions thrown by this header: `RuntimeError(file, line, msg)` and
`FileParseError(file, line, filePath, line, col, rawText, msg)`; only the
observable payload is modelled (source `__FILE__`/`__LINE__` and the constant
`-1` line/column are dropped). -/
inductive Exc where
  | runtimeError (msg : String)
  | fileParseError (filePath : String) (rawText : String) (msg : String)
deriving DecidableEq, Repr

/-- Embeds `Exception::getMsg()`. -/
def Exc.getMsg : Exc → String
  | .runtimeError m => m
  | .fileParseError _ _ m => m

/-- Embeds `SExpression::getValue<T>(throwIfEmpty)`: the whole body runs in a `try`
block whose `catch (const Exception&)` re-wraps any failure into a
`FileParseError` carrying `mFilePath` and `mValue`. `dec` stands for the
`stringToObject<T>` specialization chosen by overload resolution. -/
def getValue (dec : String → Except Exc α) (n : SExpression)
    (throwIfEmpty : Bool) : Except Exc α :=
  let body : Except Exc α :=
    if !(n.isToken || n.isString) then
      .error (.runtimeError "Node is not a token or string.")
    else if n.value.isEmpty && throwIfEmpty then
      .error (.runtimeError "Node value is empty.")
    else dec n.value
  match body with
  | .ok a => .ok a
  | .error e => .error (.fileParseError n.filePath n.value e.getMsg)

/-- Embeds `SExpression::getValueOfFirstChild<T>(throwIfEmpty)`: fewer than one
child throws a `FileParseError` (raw text `QString()`, modelled `""`) with
message "Node does not have children."; otherwise `getValue<T>` on child 0. -/
def getValueOfFirstChild (dec : String → Except Exc α) (n : SExpression)
    (throwIfEmpty : Bool) : Except Exc α :=
  match n.children with
  | [] => .error (.fileParseError n.filePath "" "Node does not have children.")
  | c :: _ => getValue dec c throwIfEmpty

/-- Embeds `objectToString<QString>`: the string passes through unchanged. -/
def objectToStringQString (s : String) : String := s

/-- Embeds `stringToObject<QString>`: the string passes through unchanged. -/
def stringToObjectQString (s : String) : Except Exc String := .ok s

/-- Embeds `objectToString<bool>`: `"true"` / `"false"`. -/
def objectToStringBool (b : Bool) : String :=
  if b then "true" else "false"

/-- Embeds `stringToObject<bool>`: only `"true"` and `"false"` are accepted. -/
def stringToObjectBool (s : String) : Except Exc Bool :=
  if s = "true" then .ok true
  else if s = "false" then .ok false
  else .error (.runtimeError "Not a valid boolean.")

/-- Little helper for `QString::number`: decimal digits of `n`, most
significant first, driven by explicit fuel so that it reduces in the kernel. -/
def natToDecAux : Nat → Nat → List Char
  | 0, _ => []
  | fuel + 1, n =>
    if n < 10 then [Nat.digitChar n]
    else natToDecAux fuel (n / 10) ++ [Nat.digitChar (n % 10)]

/-- Decimal digit string of a natural number. -/
def natToDec (n : Nat) : List Char := natToDecAux (n + 1) n

/-- Embeds `objectToString<int>`, i.e. `QString::number(obj)`: canonical base-10
text with a leading minus sign for negative values. -/
def objectToStringInt (n : Int) : String :=
  if n < 0 then String.mk ('-' :: natToDec (-n).toNat)
  else String.mk (natToDec n.toNat)

/-- Numeric value of a decimal digit character, `none` otherwise. -/
def decDigit? (c : Char) : Option Nat :=
  if '0' ≤ c ∧ c ≤ '9' then some (c.toNat - '0'.toNat) else none

/-- Accumulating decimal parse of a digit run; fails at the first
non-digit. -/
def parseDigitsAux : List Char → Nat → Option Nat
  | [], acc => some acc
  | c :: cs, acc =>
    match decDigit? c with
    | some d => parseDigitsAux cs (acc * 10 + d)
    | none => none

/-- Decimal parse of a non-empty digit run. -/
def parseDigits : List Char → Option Nat
  | [] => none
  | cs => parseDigitsAux cs 0

/-- Lower bound of the C++ `int` range. -/
def intMin : Int := -(2 ^ 31)

/-- Upper bound of the C++ `int` range. -/
def intMax : Int := 2 ^ 31 - 1

/-- Embeds `QString::toInt`: an optional sign followed by decimal digits, rejected
when out of the `int` range (in which case Qt reports failure via `ok`). -/
def qstringToInt (s : String) : Option Int :=
  let v : Option Int :=
    match s.data with
    | [] => none
    | c :: ds =>
      if c = '-' then (parseDigits ds).map fun m => -(m : Int)
      else if c = '+' then (parseDigits ds).map fun m => (m : Int)
      else (parseDigits (c :: ds)).map fun m => (m : Int)
  match v with
  | some m => if intMin ≤ m ∧ m ≤ intMax then some m else none
  | none => none

/-- Embeds `stringToObject<int>`: `str.toInt(&ok)`, throwing when `ok` is false. -/
def stringToObjectInt (s : String) : Except Exc Int :=
  match qstringToInt s with
  | some v => .ok v
  | none => .error (.runtimeError "Not a valid integer.")

/-- A domain type `T` participating in the typed value codec: it supplies
`serializeToString`, `deserializeFromString` and, when optional-capable, the
null sentinel `sRepresentationOfNull`. -/
structure DomainType (α : Type) where
  serializeToString : α → String
  deserializeFromString : String → Except Exc α
  sRepresentationOfNull : String

/-- Embeds `objectToString<tl::optional<T>>`: present delegates to the value's
`serializeToString()`, absent yields `T::sRepresentationOfNull`. -/
def objectToStringOptional (T : DomainType α) : Option α → String
  | some v => T.serializeToString v
  | none => T.sRepresentationOfNull

/-- Embeds `stringToObject<tl::optional<T>>`: text equal to
`T::sRepresentationOfNull` yields `nullopt`, anything else delegates to
`T::deserializeFromString`. -/
def stringToObjectOptional (T : DomainType α) (s : String) :
    Except Exc (Option α) :=
  if s = T.sRepresentationOfNull then .ok none
  else (T.deserializeFromString s).map some

/-- Embeds `SExpression::createList`: `SExpression(Type::List, name)` with a null
`FilePath()` (modelled `""`). -/
def createList (name : String) : SExpression := .mk .list name [] ""

/-- Embeds `SExpression::createToken`. -/
def createToken (token : String) : SExpression := .mk .token token [] ""

/-- Embeds `SExpression::createString`. -/
def createString (s : String) : SExpression := .mk .string s [] ""

/-- Embeds `SExpression::createLineBreak`. -/
def createLineBreak : SExpression := .mk .lineBreak "" [] ""

/-- Modelled from the spec: the body of `SExpression::appendChild` is in the
implementation file, not in the header. Per the spec, append operations
mutate in place, "child ordering is significant and preserved exactly as
appended", and a forced-break request "inserts a LineBreak node immediately
after the appended child". The result is the mutated node. -/
def appendChild (n child : SExpression) (linebreak : Bool) : SExpression :=
  match n with
  | .mk t v cs fp =>
    .mk t v (cs ++ (if linebreak then [child, createLineBreak] else [child])) fp

/-- Embeds `SExpression::appendToken<T>`: appends a Token child holding
`objectToString(token)` (no line break) and `return *this;`. A
reference-returning method is modelled as the pair (mutated node, value the
returned reference designates); `ser` stands for `objectToString<T>`. -/
def appendToken (ser : α → String) (n : SExpression) (token : α) :
    SExpression × SExpression :=
  let mutated := appendChild n (createToken (ser token)) false
  (mutated, mutated)

/-- Embeds `SExpression::appendString<T>`: appends a String child holding
`objectToString(string)` (no line break) and `return *this;`. -/
def appendString (ser : α → String) (n : SExpression) (s : α) :
    SExpression × SExpression :=
  let mutated := appendChild n (createString (ser s)) false
  (mutated, mutated)

/-- Modelled from the spec: the body of `SExpression::appendList` is in the
implementation file, not in the header. Per the spec, `append-list(name,
forceBreakAfter)` appends a new List child and "returns a reference to the
new child for chaining". The pair is (mutated parent, value the returned
reference designates — the fresh child list). -/
def appendList (n : SExpression) (name : String) (linebreak : Bool) :
    SExpression × SExpression :=
  (appendChild n (createList name) linebreak, createList name)

/-- Lexer whitespace. -/
def isWS (c : Char) : Bool := c = ' ' || c = '\n' || c = '\t' || c = '\r'

/-- Token (and list-name) character set, per the text grammar: "bare runs
excluding whitespace, parentheses, double quotes". -/
def isTokenChar (c : Char) : Bool :=
  !(isWS c || c = '(' || c = ')' || c = '"')

/-- The first remaining character (when there is one) cannot extend a token
run: exactly the situation in which maximal-munch token lexing stops. -/
def isDelim : List Char → Bool
  | [] => true
  | c :: _ => !isTokenChar c

/-- One escaped character of a rendered String node: backslash escapes for
quote, backslash and newline, everything else verbatim. -/
def escapeChar (c : Char) : List Char :=
  if c = '"' then ['\\', '"']
  else if c = '\\' then ['\\', '\\']
  else if c = '\n' then ['\\', 'n']
  else [c]

/-- Embeds `SExpression::escapeString` on the character list of the text. -/
def escapeString : List Char → List Char
  | [] => []
  | c :: cs => escapeChar c ++ escapeString cs

mutual

/-- Modelled from the spec: the body of `SExpression::toString` is in the
implementation file, not in the header. Single-line fragment (the fragment
containing no LineBreak nodes, where every list renders inline): a List is
`(name` + space-prefixed children + `)`, a Token renders verbatim, a String
renders quoted with escapes, a LineBreak renders as nothing. -/
def render : SExpression → List Char
  | .mk .list name cs _ => '(' :: name.data ++ renderChildren cs ++ [')']
  | .mk .token v _ _ => v.data
  | .mk .string v _ _ => '"' :: escapeString v.data ++ ['"']
  | .mk .lineBreak _ _ _ => []

/-- Children of an inline list: each child preceded by one space. -/
def renderChildren : List SExpression → List Char
  | [] => []
  | c :: cs => ' ' :: render c ++ renderChildren cs

end

/-- Embeds `SExpression::toString(int indent)` on the single-line fragment, where
the indent level cannot influence the output. -/
def SExpression.toText (e : SExpression) (_indent : Nat) : String :=
  String.mk (render e)

/-- Unescaping during string lexing: the three escapes the renderer
produces; any other escape sequence is malformed. -/
def unescapeChar (c : Char) : Option Char :=
  if c = '"' then some '"'
  else if c = '\\' then some '\\'
  else if c = 'n' then some '\n'
  else none

/-- Body of a quoted string (the opening quote already consumed): collects
characters up to the closing quote, resolving escapes; an unterminated
string or unknown escape is a parse failure. -/
def parseStringBody : List Char → Option (List Char × List Char)
  | [] => none
  | c :: rest =>
    if c = '"' then some ([], rest)
    else if c = '\\' then
      match rest with
      | [] => none
      | e :: rest' =>
        match unescapeChar e with
        | some u => (parseStringBody rest').map fun p => (u :: p.1, p.2)
        | none => none
    else (parseStringBody rest).map fun p => (c :: p.1, p.2)

mutual

/-- Modelled from the spec: the body of `SExpression::parse` (and the
external `sexpresso` parser plus the classifying private constructor it
feeds) is in the implementation file, not in the header. One expression:
`(` opens a List whose name is the following token run and whose children
run to the matching `)`; `"` opens a String; a token character opens a
Token (maximal munch). Every produced node is stamped with `fp`. Fuel
drives the recursion so the definition evaluates in the kernel. -/
def parseExpr (fp : String) : Nat → List Char → Option (SExpression × List Char)
  | 0, _ => none
  | fuel + 1, input =>
    match input with
    | [] => none
    | c :: rest =>
      if c = '(' then
        let name := rest.takeWhile isTokenChar
        if name.isEmpty then none
        else
          match parseChildren fp fuel (rest.dropWhile isTokenChar) with
          | some (cs, rest') => some (.mk .list (String.mk name) cs fp, rest')
          | none => none
      else if c = '"' then
        match parseStringBody rest with
        | some (cs, rest') => some (.mk .string (String.mk cs) [] fp, rest')
        | none => none
      else if isTokenChar c then
        some (.mk .token (String.mk ((c :: rest).takeWhile isTokenChar)) [] fp,
          (c :: rest).dropWhile isTokenChar)
      else none

/-- Children of a list under construction: skip whitespace, close on `)`,
otherwise parse one child expression and continue. -/
def parseChildren (fp : String) :
    Nat → List Char → Option (List SExpression × List Char)
  | 0, _ => none
  | fuel + 1, input =>
    match input.dropWhile isWS with
    | [] => none
    | c :: rest =>
      if c = ')' then some ([], rest)
      else
        match parseExpr fp fuel (c :: rest) with
        | some (e, rest') =>
          match parseChildren fp fuel rest' with
          | some (cs, rest'') => some (e :: cs, rest'')
          | none => none
        | none => none

end

/-- Embeds `SExpression::parse(str, filePath)`: parse one expression and require
only trailing whitespace after it. -/
def parse (s : String) (fp : String) : Option SExpression :=
  match parseExpr fp (s.length + 1) s.data with
  | some (e, rest) => if (rest.dropWhile isWS).isEmpty then some e else none
  | none => none

mutual

/-- The trees claim C1 ranges over: built only from List/Token/String nodes
(no LineBreak), with the structural invariants the factories enforce — a
List name is nonempty over the token charset, a Token value is nonempty over
the token charset, and only List nodes have children. -/
def wellFormed : SExpression → Bool
  | .mk .list name cs _ =>
    !name.data.isEmpty && name.data.all isTokenChar && wellFormedList cs
  | .mk .token v cs _ =>
    !v.data.isEmpty && v.data.all isTokenChar && cs.isEmpty
  | .mk .string _ cs _ => cs.isEmpty
  | .mk .lineBreak _ _ _ => false

/-- Embeds `wellFormed` on every element. -/
def wellFormedList : List SExpression → Bool
  | [] => true
  | c :: cs => wellFormed c && wellFormedList cs

end

/-- A concrete document tree used to instantiate the round-trip theorem. -/
def sampleTree : SExpression :=
  .mk .list "root"
    [.mk .token "a-1" [] "", .mk .string "b (\"c\n" [] "",
      .mk .list "sub" [.mk .token "x" [] ""] ""] ""

/-- A domain type whose serializer can hit the null sentinel: the unit
value serializes to `none`, and its own deserializer accepts `none` back —
so the type's own codec round-trips, making it a legitimate participant in
the optional codec. -/
def unitNoneCodec : DomainType Unit where
  serializeToString := fun _ => "none"
  deserializeFromString := fun s =>
    if s = "none" then .ok ()
    else .error (.runtimeError "Not a valid unit value.")
  sRepresentationOfNull := "none"

/-- The boolean codec packaged as an optional-capable domain type with null
sentinel `none`, for instantiating the optional-codec theorems. -/
def boolNoneCodec : DomainType Bool where
  serializeToString := objectToStringBool
  deserializeFromString := stringToObjectBool
  sRepresentationOfNull := "none"

mutual

/-- Stamp every node of a tree with a file path, as the parser adapter does
with the file it reads. -/
def setFilePath (fp : String) : SExpression → SExpression
  | .mk t v cs _ => .mk t v (setFilePathList fp cs) fp

/-- Embeds `setFilePath` on every element. -/
def setFilePathList (fp : String) : List SExpression → List SExpression
  | [] => []
  | c :: cs => setFilePath fp c :: setFilePathList fp cs

end

end LibrePCB

namespace LibrePCB

/-- Rebuilding a string from its character data gives the string back. -/
theorem mk_data (s : String) : String.mk s.data = s := rfl

/-- A token character is not whitespace and is none of the four structural
characters. -/
theorem isTokenChar_facts (c : Char) (h : isTokenChar c = true) :
    isWS c = false ∧ c ≠ '(' ∧ c ≠ ')' ∧ c ≠ '"' := by
  simp only [isTokenChar, Bool.not_eq_true', Bool.or_eq_false_iff,
    decide_eq_false_iff_not] at h
  exact ⟨h.1.1.1, h.1.1.2, h.1.2, h.2⟩

/-- Lexing a run of token characters followed by a delimiter (end of input
or a non-token character) yields exactly that run. -/
theorem takeWhile_token_append (t rest : List Char)
    (ht : t.all isTokenChar = true) (hr : isDelim rest = true) :
    (t ++ rest).takeWhile isTokenChar = t ∧
    (t ++ rest).dropWhile isTokenChar = rest := by
  induction t with
  | nil =>
    cases rest with
    | nil => simp
    | cons c cs =>
      simp only [isDelim, Bool.not_eq_true'] at hr
      simp [List.takeWhile_cons, List.dropWhile_cons, hr]
  | cons c cs ih =>
    simp only [List.all_cons, Bool.and_eq_true] at ht
    have h2 := ih ht.2
    simp [List.takeWhile_cons, List.dropWhile_cons, ht.1, h2.1, h2.2]

/-- Un-escaping inverts escaping, one string body at a time: the lexer
reads back exactly the escaped text up to the closing quote. -/
theorem parseStringBody_escape (s rest : List Char) :
    parseStringBody (escapeString s ++ '"' :: rest) = some (s, rest) := by
  induction s with
  | nil =>
    rw [escapeString, List.nil_append, parseStringBody.eq_def]
    simp
  | cons c cs ih =>
    by_cases h1 : c = '"'
    · subst h1
      rw [escapeString, escapeChar]
      simp only [if_pos rfl, List.cons_append, List.append_assoc]
      rw [parseStringBody.eq_def]
      simp [unescapeChar, ih]
    · by_cases h2 : c = '\\'
      · subst h2
        rw [escapeString, escapeChar]
        simp only [if_neg (by decide : ¬('\\' = '"')), if_pos rfl,
          List.cons_append, List.append_assoc]
        rw [parseStringBody.eq_def]
        simp [unescapeChar, ih]
      · by_cases h3 : c = '\n'
        · subst h3
          rw [escapeString, escapeChar]
          simp only [if_neg (by decide : ¬('\n' = '"')),
            if_neg (by decide : ¬('\n' = '\\')), if_pos rfl,
            List.cons_append, List.append_assoc]
          rw [parseStringBody.eq_def]
          simp [unescapeChar, ih]
        · rw [escapeString, escapeChar, if_neg h1, if_neg h2, if_neg h3]
          simp only [List.cons_append, List.nil_append]
          rw [parseStringBody.eq_def]
          simp [h1, h2, ih]

/-- A well-formed node renders to text whose first character is neither
whitespace nor a closing parenthesis: `(` for a List, `"` for a String, a
token character for a Token. -/
theorem render_head (c : SExpression) (h : wellFormed c = true) :
    ∃ d ds, render c = d :: ds ∧ isWS d = false ∧ d ≠ ')' := by
  match c with
  | .mk .list name cs fp =>
    exact ⟨'(', name.data ++ renderChildren cs ++ [')'], by simp [render],
      by decide, by decide⟩
  | .mk .string v cs fp =>
    exact ⟨'"', escapeString v.data ++ ['"'], by simp [render], by decide,
      by decide⟩
  | .mk .lineBreak v cs fp => simp [wellFormed] at h
  | .mk .token v cs fp =>
    simp only [wellFormed, Bool.and_eq_true, Bool.not_eq_true'] at h
    obtain ⟨⟨hne, hall⟩, -⟩ := h
    match hv : v.data with
    | [] => rw [hv] at hne; simp at hne
    | d :: ds =>
      rw [hv] at hall
      simp only [List.all_cons, Bool.and_eq_true] at hall
      have hf := isTokenChar_facts d hall.1
      exact ⟨d, ds, by simp [render, hv], hf.1, hf.2.2.1⟩

/-- The text after an inline list's children always opens with a delimiter:
a space before the next child, or the closing parenthesis. -/
theorem isDelim_renderChildren (cs : List SExpression) (rest : List Char) :
    isDelim (renderChildren cs ++ ')' :: rest) = true := by
  cases cs with
  | nil =>
    simp only [renderChildren, List.nil_append, isDelim]
    decide
  | cons c cs' =>
    simp only [renderChildren, List.cons_append, isDelim]
    decide

mutual

/-- With enough fuel, parsing the rendered text of a well-formed tree
followed by any delimited suffix succeeds, consumes exactly the rendered
text, and returns the tree stamped with the file path. -/
theorem parseExpr_render :
    ∀ (T : SExpression) (fp : String) (fuel : Nat) (rest : List Char),
      wellFormed T = true → isDelim rest = true →
      (render T).length ≤ fuel →
      parseExpr fp (fuel + 1) (render T ++ rest) =
        some (setFilePath fp T, rest)
  | .mk .lineBreak v cs fp', fp, fuel, rest, hwf, hdelim, hlen => by
    simp [wellFormed] at hwf
  | .mk .token v cs fp', fp, fuel, rest, hwf, hdelim, hlen => by
    simp only [wellFormed, Bool.and_eq_true, Bool.not_eq_true'] at hwf
    obtain ⟨⟨hne, hall⟩, hcs⟩ := hwf
    have hcs' : cs = [] := by
      cases cs with
      | nil => rfl
      | cons a l => simp at hcs
    subst hcs'
    have hr : render (.mk .token v [] fp') = v.data := by simp [render]
    rw [hr]
    match hv : v.data with
    | [] => rw [hv] at hne; simp at hne
    | d :: ds =>
      rw [hv] at hall
      have hd : isTokenChar d = true := by
        simp only [List.all_cons, Bool.and_eq_true] at hall
        exact hall.1
      have hf := isTokenChar_facts d hd
      have htw := takeWhile_token_append (d :: ds) rest hall hdelim
      rw [parseExpr.eq_def]
      simp only [List.cons_append]
      simp only [if_neg hf.2.1, if_neg hf.2.2.2, if_pos hd]
      rw [← List.cons_append, htw.1, htw.2]
      have hmk : String.mk (d :: ds) = v := by rw [← hv]
      rw [hmk]
      simp [setFilePath, setFilePathList]
  | .mk .string v cs fp', fp, fuel, rest, hwf, hdelim, hlen => by
    simp only [wellFormed] at hwf
    have hcs' : cs = [] := by
      cases cs with
      | nil => rfl
      | cons a l => simp at hwf
    subst hcs'
    have hr : render (.mk .string v [] fp') =
        '"' :: escapeString v.data ++ ['"'] := by simp [render]
    rw [hr]
    simp only [List.cons_append, List.append_assoc, List.singleton_append]
    rw [parseExpr.eq_def]
    simp only [if_neg (by decide : ¬('"' = '(')), if_pos rfl]
    rw [parseStringBody_escape]
    simp [setFilePath, setFilePathList, mk_data]
  | .mk .list name cs fp', fp, fuel, rest, hwf, hdelim, hlen => by
    simp only [wellFormed, Bool.and_eq_true, Bool.not_eq_true'] at hwf
    obtain ⟨⟨hne, hall⟩, hwfcs⟩ := hwf
    have hr : render (.mk .list name cs fp') =
        '(' :: name.data ++ renderChildren cs ++ [')'] := by simp [render]
    have hnl : 1 ≤ name.data.length := by
      cases hnd : name.data with
      | nil => rw [hnd] at hne; simp at hne
      | cons a l => simp
    have hlen' : (renderChildren cs).length + 2 ≤ fuel := by
      rw [hr] at hlen
      simp only [List.length_append, List.length_cons] at hlen
      omega
    obtain ⟨f, rfl⟩ : ∃ f, fuel = f + 1 := ⟨fuel - 1, by omega⟩
    rw [hr]
    simp only [List.cons_append, List.append_assoc, List.singleton_append,
      List.nil_append]
    rw [parseExpr.eq_def]
    have htw := takeWhile_token_append name.data
      (renderChildren cs ++ ')' :: rest) hall (isDelim_renderChildren cs rest)
    have hpc := parseChildren_render cs fp f rest hwfcs (by omega)
    simp [htw.1, htw.2, hne, hpc, setFilePath, mk_data]

/-- With enough fuel, parsing the rendered children of a well-formed list
up to the closing parenthesis returns exactly those children, stamped. -/
theorem parseChildren_render :
    ∀ (cs : List SExpression) (fp : String) (fuel : Nat) (rest : List Char),
      wellFormedList cs = true →
      (renderChildren cs).length ≤ fuel →
      parseChildren fp (fuel + 1) (renderChildren cs ++ ')' :: rest) =
        some (setFilePathList fp cs, rest)
  | [], fp, fuel, rest, hwf, hlen => by
    rw [renderChildren]
    simp only [List.nil_append]
    rw [parseChildren.eq_def]
    simp [List.dropWhile_cons, (by decide : isWS ')' = false),
      setFilePathList]
  | c :: cs', fp, fuel, rest, hwf, hlen => by
    simp only [wellFormedList, Bool.and_eq_true] at hwf
    obtain ⟨hwfc, hwfcs'⟩ := hwf
    obtain ⟨d, ds, hcd, hdws, hdnp⟩ := render_head c hwfc
    have hlen2 : (render c).length + (renderChildren cs').length + 1 ≤
        fuel := by
      rw [renderChildren] at hlen
      simp only [List.length_cons, List.length_append] at hlen
      omega
    obtain ⟨f, rfl⟩ : ∃ f, fuel = f + 1 := ⟨fuel - 1, by
      have : 1 ≤ (render c).length := by rw [hcd]; simp
      omega⟩
    rw [renderChildren]
    simp only [List.cons_append, List.append_assoc, List.nil_append]
    rw [parseChildren.eq_def]
    simp only [List.dropWhile_cons, (by decide : isWS ' ' = true), if_true]
    rw [hcd]
    simp only [List.cons_append, List.dropWhile_cons, hdws,
      Bool.false_eq_true, if_false]
    simp only [if_neg hdnp]
    rw [← List.cons_append, ← hcd]
    rw [parseExpr_render c fp f (renderChildren cs' ++ ')' :: rest) hwfc
      (isDelim_renderChildren cs' rest) (by omega)]
    have hpc := parseChildren_render cs' fp f rest hwfcs' (by omega)
    simp [hpc, setFilePathList]

end

mutual

/-- Stamping a tree with a file path leaves it structurally equal to the
original: provenance is excluded from equality. -/
theorem deepEquals_setFilePath (fp : String) :
    ∀ T : SExpression, deepEquals (setFilePath fp T) T = true
  | .mk t v cs fp' => by
    simp [setFilePath, deepEquals, deepEqualsList_setFilePathList fp cs]

/-- Embeds `deepEquals_setFilePath`, lifted to child lists. -/
theorem deepEqualsList_setFilePathList (fp : String) :
    ∀ cs : List SExpression, deepEqualsList (setFilePathList fp cs) cs = true
  | [] => by simp [setFilePathList, deepEqualsList]
  | c :: cs' => by
    simp [setFilePathList, deepEqualsList, deepEquals_setFilePath fp c,
      deepEqualsList_setFilePathList fp cs']

end

/-- C1: for every tree built only from List, Token and String nodes (no
LineBreak nodes, names and token values well-formed), parsing the rendered
text yields exactly the tree stamped with the parse file path — a tree that
is structurally equal (deep-equals, provenance excluded) to the original. -/
theorem parse_toText_roundTrip (T : SExpression) (fp : String)
    (h : wellFormed T = true) :
    parse (T.toText 0) fp = some (setFilePath fp T) ∧
    deepEquals (setFilePath fp T) T = true := by
  constructor
  · have hp := parseExpr_render T fp (render T).length [] h rfl (le_refl _)
    rw [List.append_nil] at hp
    rw [parse]
    have hd : (T.toText 0).data = render T := rfl
    have hl : (T.toText 0).length = (render T).length := rfl
    rw [hd, hl, hp]
    simp [List.dropWhile]
  · exact deepEquals_setFilePath fp T

/-- Witness: the round-trip theorem applied to `sampleTree`. -/
theorem parse_toText_roundTrip_witness :
    wellFormed sampleTree = true ∧
    (parse (sampleTree.toText 0) "pcb.lp" =
        some (setFilePath "pcb.lp" sampleTree) ∧
      deepEquals (setFilePath "pcb.lp" sampleTree) sampleTree = true) :=
  ⟨by decide, parse_toText_roundTrip sampleTree "pcb.lp" (by decide)⟩

/-- C2 is false on the code: at a List node, `getValue` does not let the
structure error propagate unchanged — the value surfaced is a
`FileParseError` (which is a different exception from the `RuntimeError`
carrying the structure message), because the `try` block spans the whole
body and the `catch` re-wraps every `Exception`. -/
theorem getValue_nonLeaf_counterexample :
    getValue stringToObjectBool (.mk .list "net" [] "f.lp") false =
      .error (.fileParseError "f.lp" "net" "Node is not a token or string.") ∧
    Exc.fileParseError "f.lp" "net" "Node is not a token or string." ≠
      Exc.runtimeError "Node is not a token or string." := by
  exact ⟨rfl, by decide⟩

/-- C2 (amended): on a node that is neither Token nor String, `getValue`
fails with a `FileParseError` carrying the node's file path, its raw value
and the structure-error message — the structure error is re-wrapped at the
`catch`, not propagated unchanged. -/
theorem getValue_nonLeaf_wrapped {α : Type} (dec : String → Except Exc α)
    (n : SExpression) (b : Bool)
    (h1 : n.isToken = false) (h2 : n.isString = false) :
    getValue dec n b =
      .error (.fileParseError n.filePath n.value
        "Node is not a token or string.") := by
  simp [getValue, h1, h2, Exc.getMsg]

/-- Witness: the amended C2 theorem at a concrete List node. -/
theorem getValue_nonLeaf_wrapped_witness :
    getValue stringToObjectQString (.mk .list "via" [] "a.lp") true =
      .error (.fileParseError "a.lp" "via"
        "Node is not a token or string.") :=
  getValue_nonLeaf_wrapped stringToObjectQString
    (.mk .list "via" [] "a.lp") true (by decide) (by decide)

/-- C3: on a Token or String node whose raw text the codec rejects with a
format error, `getValue` fails with a `FileParseError` carrying the node's
file path and raw text; the codec-level error never escapes unwrapped. -/
theorem getValue_formatError_wrapped {α : Type} (dec : String → Except Exc α)
    (n : SExpression) (b : Bool) (m : String)
    (hleaf : n.isToken = true ∨ n.isString = true)
    (hne : n.value.isEmpty = false ∨ b = false)
    (hdec : dec n.value = .error (.runtimeError m)) :
    getValue dec n b =
      .error (.fileParseError n.filePath n.value m) := by
  rcases hleaf with h | h <;> rcases hne with h' | h' <;>
    simp [getValue, h, h', hdec, Exc.getMsg]

/-- Witness: the C3 theorem at a Token `maybe` read as a boolean. -/
theorem getValue_formatError_wrapped_witness :
    getValue stringToObjectBool (.mk .token "maybe" [] "b.lp") false =
      .error (.fileParseError "b.lp" "maybe" "Not a valid boolean.") :=
  getValue_formatError_wrapped stringToObjectBool
    (.mk .token "maybe" [] "b.lp") false "Not a valid boolean."
    (Or.inl (by decide)) (Or.inr rfl) rfl

/-- C4 is false on the code in its first half: on a Token with empty text
and `throwIfEmpty` set, the failure surfaced is a `FileParseError` wrapping
the empty-value message (again because the `catch` spans the whole body),
which differs from the bare empty-value `RuntimeError`; the second half
(empty string returned when not rejecting) does hold. -/
theorem getValue_empty_counterexample :
    getValue stringToObjectQString (.mk .token "" [] "c.lp") true =
      .error (.fileParseError "c.lp" "" "Node value is empty.") ∧
    Exc.fileParseError "c.lp" "" "Node value is empty." ≠
      Exc.runtimeError "Node value is empty." ∧
    getValue stringToObjectQString (.mk .token "" [] "c.lp") false =
      .ok "" := by
  exact ⟨rfl, by decide, rfl⟩

/-- C4 (amended): on a Token whose text is the empty string,
`getValue<QString>` with `throwIfEmpty` fails with a `FileParseError`
wrapping the empty-value message, and with `throwIfEmpty` unset returns the
empty string. -/
theorem getValue_empty_token (n : SExpression)
    (htok : n.isToken = true) (hempty : n.value = "") :
    getValue stringToObjectQString n true =
      .error (.fileParseError n.filePath "" "Node value is empty.") ∧
    getValue stringToObjectQString n false = .ok "" := by
  constructor <;>
    simp [getValue, htok, hempty, stringToObjectQString, Exc.getMsg,
      (by decide : "".isEmpty = true)]

/-- Witness: the amended C4 theorem at a concrete empty Token. -/
theorem getValue_empty_token_witness :
    getValue stringToObjectQString (.mk .token "" [] "d.lp") true =
      .error (.fileParseError "d.lp" "" "Node value is empty.") ∧
    getValue stringToObjectQString (.mk .token "" [] "d.lp") false =
      .ok "" :=
  getValue_empty_token (.mk .token "" [] "d.lp") (by decide) rfl

/-- C5 is false on the code: on a childless node,
`getValueOfFirstChild` throws a `FileParseError` directly (message "Node
does not have children."), not a structure-shaped `RuntimeError`. -/
theorem getValueOfFirstChild_counterexample :
    getValueOfFirstChild stringToObjectQString (.mk .list "pkg" [] "e.lp")
        false =
      .error (.fileParseError "e.lp" "" "Node does not have children.") ∧
    Exc.fileParseError "e.lp" "" "Node does not have children." ≠
      Exc.runtimeError "Node does not have children." := by
  exact ⟨rfl, by decide⟩

/-- C5 (amended): `getValueOfFirstChild` fails with a `FileParseError`
("Node does not have children.", raw text empty) on a node with zero
children, and otherwise returns `getValue` applied to the child at
index 0. -/
theorem getValueOfFirstChild_behavior {α : Type}
    (dec : String → Except Exc α) (n : SExpression) (b : Bool) :
    (n.children.length = 0 →
      getValueOfFirstChild dec n b =
        .error (.fileParseError n.filePath ""
          "Node does not have children.")) ∧
    (∀ c, n.children.head? = some c →
      getValueOfFirstChild dec n b = getValue dec c b) := by
  constructor
  · intro h
    have : n.children = [] := List.length_eq_zero.mp h
    simp [getValueOfFirstChild, this]
  · intro c hc
    match hm : n.children with
    | [] => rw [hm] at hc; simp at hc
    | c' :: cs =>
      rw [hm] at hc
      simp only [List.head?] at hc
      cases hc
      simp [getValueOfFirstChild, hm]

/-- Witness: the amended C5 theorem at a childless node and at a node with
a first child. -/
theorem getValueOfFirstChild_behavior_witness :
    getValueOfFirstChild stringToObjectBool (.mk .list "flag" [] "g.lp")
        false =
      .error (.fileParseError "g.lp" "" "Node does not have children.") ∧
    getValueOfFirstChild stringToObjectBool
        (.mk .list "flag" [.mk .token "true" [] "g.lp"] "g.lp") false =
      getValue stringToObjectBool (.mk .token "true" [] "g.lp") false :=
  ⟨(getValueOfFirstChild_behavior stringToObjectBool
      (.mk .list "flag" [] "g.lp") false).1 rfl,
    (getValueOfFirstChild_behavior stringToObjectBool
      (.mk .list "flag" [.mk .token "true" [] "g.lp"] "g.lp") false).2
      (.mk .token "true" [] "g.lp") rfl⟩

/-- C6 is false as stated: `unitNoneCodec` has a defined null sentinel and
its own codec round-trips its present value, yet deserializing the
serialization of that present value yields absent — because the value's
serialized text coincides with the sentinel. -/
theorem optionalCodec_counterexample :
    unitNoneCodec.deserializeFromString
        (unitNoneCodec.serializeToString ()) = .ok () ∧
    stringToObjectOptional unitNoneCodec
        (objectToStringOptional unitNoneCodec (some ())) = .ok none ∧
    (none : Option Unit) ≠ some () := by
  exact ⟨rfl, rfl, by decide⟩

/-- C6 (amended): the sentinel deserializes to absent, absent serializes to
the sentinel, and a present value round-trips provided the underlying
type's codec round-trips it and its serialized text differs from the
sentinel. -/
theorem optionalCodec_roundTrip {α : Type} (T : DomainType α) (v : α)
    (h1 : T.deserializeFromString (T.serializeToString v) = .ok v)
    (h2 : T.serializeToString v ≠ T.sRepresentationOfNull) :
    stringToObjectOptional T T.sRepresentationOfNull = .ok none ∧
    objectToStringOptional T none = T.sRepresentationOfNull ∧
    stringToObjectOptional T (objectToStringOptional T (some v)) =
      .ok (some v) := by
  refine ⟨by simp [stringToObjectOptional], rfl, ?_⟩
  simp [stringToObjectOptional, objectToStringOptional, h2, h1, Except.map]

/-- Witness: the amended C6 theorem at the optional boolean codec and the
present value `true`. -/
theorem optionalCodec_roundTrip_witness :
    stringToObjectOptional boolNoneCodec
        boolNoneCodec.sRepresentationOfNull = .ok none ∧
    objectToStringOptional boolNoneCodec none =
      boolNoneCodec.sRepresentationOfNull ∧
    stringToObjectOptional boolNoneCodec
        (objectToStringOptional boolNoneCodec (some true)) =
      .ok (some true) :=
  optionalCodec_roundTrip boolNoneCodec true rfl (by decide)

/-- C7: the boolean codec: deserialization yields `true` exactly on the
text `true` and `false` exactly on the text `false`, fails with the format
error on every other string, and serialization emits the two literals. -/
theorem boolCodec_spec :
    (∀ s, stringToObjectBool s = .ok true ↔ s = "true") ∧
    (∀ s, stringToObjectBool s = .ok false ↔ s = "false") ∧
    (∀ s, s ≠ "true" → s ≠ "false" →
      stringToObjectBool s = .error (.runtimeError "Not a valid boolean.")) ∧
    objectToStringBool true = "true" ∧
    objectToStringBool false = "false" := by
  refine ⟨?_, ?_, ?_, rfl, rfl⟩
  · intro s
    by_cases h1 : s = "true"
    · simp [stringToObjectBool, h1]
    · by_cases h2 : s = "false" <;> simp [stringToObjectBool, h1, h2]
  · intro s
    by_cases h1 : s = "true"
    · simp [stringToObjectBool, h1]
    · by_cases h2 : s = "false" <;> simp [stringToObjectBool, h1, h2]
  · intro s h1 h2
    simp [stringToObjectBool, h1, h2]

/-- Witness: the C7 theorem applied to the string `maybe`. -/
theorem boolCodec_spec_witness :
    stringToObjectBool "maybe" =
      .error (.runtimeError "Not a valid boolean.") :=
  boolCodec_spec.2.2.1 "maybe" (by decide) (by decide)

/-- C9: the sentinel comparison takes priority: for every domain type, text
equal to the null sentinel deserializes to absent, regardless of what the
type's own deserializer would make of it. -/
theorem stringToObjectOptional_sentinel {α : Type} (T : DomainType α)
    (s : String) (h : s = T.sRepresentationOfNull) :
    stringToObjectOptional T s = .ok none := by
  simp [stringToObjectOptional, h]

/-- Witness: at `unitNoneCodec` — whose own deserializer would accept the
sentinel text as a present value — the sentinel still yields absent. -/
theorem stringToObjectOptional_sentinel_witness :
    unitNoneCodec.deserializeFromString "none" = .ok () ∧
    stringToObjectOptional unitNoneCodec "none" = .ok none :=
  ⟨rfl, stringToObjectOptional_sentinel unitNoneCodec "none" rfl⟩

/-- C10: `appendToken` and `appendString` append exactly one child — a
Token resp. String holding the serialized text — at the end of the node's
children, leave its kind, value and file path untouched, and return the
node itself; `appendList` instead returns the freshly created child
list. -/
theorem append_returns {α : Type} (ser : α → String) (n : SExpression)
    (v : α) (name : String) (lb : Bool) :
    (appendToken ser n v).1.children =
      n.children ++ [createToken (ser v)] ∧
    (appendToken ser n v).1.type = n.type ∧
    (appendToken ser n v).1.value = n.value ∧
    (appendToken ser n v).1.filePath = n.filePath ∧
    (appendToken ser n v).2 = (appendToken ser n v).1 ∧
    (appendString ser n v).1.children =
      n.children ++ [createString (ser v)] ∧
    (appendString ser n v).1.type = n.type ∧
    (appendString ser n v).1.value = n.value ∧
    (appendString ser n v).1.filePath = n.filePath ∧
    (appendString ser n v).2 = (appendString ser n v).1 ∧
    (appendList n name lb).2 = createList name := by
  cases n with
  | mk t val cs fp =>
    refine ⟨?_, rfl, rfl, rfl, rfl, ?_, rfl, rfl, rfl, rfl, rfl⟩ <;>
      simp [appendToken, appendString, appendChild, SExpression.children]

/-- Splitting an accumulating digit parse over list concatenation. -/
theorem parseDigitsAux_append (l₁ l₂ : List Char) (acc : Nat) :
    parseDigitsAux (l₁ ++ l₂) acc =
      match parseDigitsAux l₁ acc with
      | some a => parseDigitsAux l₂ a
      | none => none := by
  induction l₁ generalizing acc with
  | nil => simp [parseDigitsAux]
  | cons c cs ih =>
    simp only [List.cons_append, parseDigitsAux]
    cases hd : decDigit? c with
    | some d => simp [ih]
    | none => simp

/-- Reading back the digit character of a digit value. -/
theorem decDigit?_digitChar (d : Nat) (h : d < 10) :
    decDigit? (Nat.digitChar d) = some d := by
  interval_cases d <;> decide

/-- The produced decimal digit string parses back with any accumulator. -/
theorem parseDigitsAux_natToDecAux (fuel : Nat) :
    ∀ n acc, n < fuel →
      parseDigitsAux (natToDecAux fuel n) acc =
        some (acc * 10 ^ (natToDecAux fuel n).length + n) := by
  induction fuel with
  | zero => omega
  | succ f ih =>
    intro n acc h
    rw [natToDecAux]
    by_cases h10 : n < 10
    · simp only [if_pos h10]
      simp [parseDigitsAux, decDigit?_digitChar n h10]
    · simp only [if_neg h10]
      rw [parseDigitsAux_append]
      have hdiv : n / 10 < f := by
        have := Nat.div_lt_self (by omega : 0 < n) (by omega : 1 < 10)
        omega
      rw [ih (n / 10) acc hdiv]
      have hmod : n % 10 < 10 := Nat.mod_lt n (by omega)
      simp only [parseDigitsAux, decDigit?_digitChar (n % 10) hmod,
        List.length_append, List.length_cons, List.length_nil, Nat.add_zero,
        Nat.zero_add]
      rw [pow_succ]
      congr 1
      have h2 : n / 10 * 10 + n % 10 = n := by omega
      calc (acc * 10 ^ (natToDecAux f (n / 10)).length + n / 10) * 10 +
            n % 10 =
          acc * (10 ^ (natToDecAux f (n / 10)).length * 10) +
            (n / 10 * 10 + n % 10) := by ring
        _ = acc * (10 ^ (natToDecAux f (n / 10)).length * 10) + n := by
          rw [h2]

/-- The decimal digit string is never empty (given fuel). -/
theorem natToDecAux_ne_nil (fuel n : Nat) (h : 0 < fuel) :
    natToDecAux fuel n ≠ [] := by
  cases fuel with
  | zero => omega
  | succ f =>
    rw [natToDecAux]
    by_cases h10 : n < 10 <;> simp [h10]

/-- Embeds `parseDigits` inverts `natToDec`. -/
theorem parseDigits_natToDec (n : Nat) :
    parseDigits (natToDec n) = some n := by
  have hne := natToDecAux_ne_nil (n + 1) n (by omega)
  have h := parseDigitsAux_natToDecAux (n + 1) n 0 (by omega)
  rw [natToDec]
  match hv : natToDecAux (n + 1) n with
  | [] => exact absurd hv hne
  | c :: cs =>
    rw [hv] at h
    rw [parseDigits.eq_def]
    simp only []
    rw [h]
    simp

/-- The decimal digit string opens with a digit character. -/
theorem natToDecAux_head (fuel : Nat) :
    ∀ n, 0 < fuel →
      ∃ k ds, k < 10 ∧ natToDecAux fuel n = Nat.digitChar k :: ds := by
  induction fuel with
  | zero => omega
  | succ f ih =>
    intro n h
    rw [natToDecAux]
    by_cases h10 : n < 10
    · exact ⟨n, [], h10, by simp [h10]⟩
    · simp only [if_neg h10]
      by_cases hf : 0 < f
      · obtain ⟨k, ds, hk, he⟩ := ih (n / 10) hf
        exact ⟨k, ds ++ [Nat.digitChar (n % 10)], hk, by rw [he]; simp⟩
      · have hf0 : f = 0 := by omega
        subst hf0
        exact ⟨n % 10, [], Nat.mod_lt n (by omega), by rw [natToDecAux]; simp⟩

/-- Digit characters are not sign characters. -/
theorem digitChar_not_sign (k : Nat) (h : k < 10) :
    Nat.digitChar k ≠ '-' ∧ Nat.digitChar k ≠ '+' := by
  interval_cases k <;> exact ⟨by decide, by decide⟩

/-- Embeds `QString::toInt` inverts `QString::number` on the `int` range. -/
theorem qstringToInt_objectToStringInt (n : Int)
    (h1 : intMin ≤ n) (h2 : n ≤ intMax) :
    qstringToInt (objectToStringInt n) = some n := by
  by_cases hn : n < 0
  · rw [objectToStringInt, if_pos hn, qstringToInt]
    have hcast : ((-n).toNat : Int) = -n :=
      Int.toNat_of_nonneg (by omega)
    simp [parseDigits_natToDec, hcast, h1, h2]
  · rw [objectToStringInt, if_neg hn, qstringToInt]
    obtain ⟨k, ds, hk, he⟩ := natToDecAux_head (n.toNat + 1) n.toNat
      (by omega)
    have he' : natToDec n.toNat = Nat.digitChar k :: ds := he
    have hdata : (String.mk (natToDec n.toNat)).data =
        Nat.digitChar k :: ds := he'
    rw [hdata]
    simp only [if_neg (digitChar_not_sign k hk).1,
      if_neg (digitChar_not_sign k hk).2]
    rw [← he']
    have hcast : (n.toNat : Int) = n := Int.toNat_of_nonneg (by omega)
    simp [parseDigits_natToDec, hcast, h1, h2]

/-- C8: the integer codec: serialization emits canonical base-10 text
(`-7` serializes to `-7`, and deserialization inverts serialization on the
whole `int` range), `42` deserializes to 42, and text that is not a valid
integer fails with the format error. -/
theorem intCodec_spec :
    (∀ n : Int, intMin ≤ n → n ≤ intMax →
      stringToObjectInt (objectToStringInt n) = .ok n) ∧
    objectToStringInt (-7) = "-7" ∧
    stringToObjectInt "42" = .ok 42 ∧
    stringToObjectInt "4a" =
      .error (.runtimeError "Not a valid integer.") := by
  refine ⟨?_, rfl, rfl, rfl⟩
  intro n h1 h2
  rw [stringToObjectInt, qstringToInt_objectToStringInt n h1 h2]

/-- Witness: the C8 theorem applied to −7. -/
theorem intCodec_spec_witness :
    stringToObjectInt (objectToStringInt (-7)) = .ok (-7) :=
  intCodec_spec.1 (-7) (by decide) (by decide)

end LibrePCB
